import Mathlib

/-!
Shallow embedding of the Serverless AQI Predictor's incremental synchronization
engine (the hourly catch-up ingestion pipeline) and of the components it calls:

* src/src/hourly_ingestion_catchup.py : the catch-up `run` entry point, the
  Mongo helpers `_latest_event_timestamp`, `_read_history_from_mongo`,
  `_upsert_features`, and the merge + dedup step performed inline in `run`;
* src/preprocessing/clean_data.py : `clean_aqi_weather_data`;
* src/feature_engineering/feature_pipeline.py : `build_feature_store_rows`;
* src/src/hourly_ingestion.py : `_get_aqi_history` and `_build_feature_doc`.

Modelling conventions (stated once here):

* Timestamps are whole hours, represented as `Int` = hours since the epoch in
  naive UTC.  Every timestamp the pipeline handles is floored to the hour
  (`.floor("h")`), so the sub-hour detail the floors remove is not
  representable and flooring is the identity in the model.
* Karachi local clock time (`Asia/Karachi`, fixed UTC+5, no DST) is
  `utc + tzOffsetHours`; the date-based Open-Meteo query uses the local civil
  day number `(localHour).ediv 24`.
* `float64` measurement values are embedded as `ℚ`; a pandas `NaN` cell is
  `Option.none`.  The float columns `hour_sin` / `hour_cos` are omitted from
  the record model: floating-point transcendentals are not faithfully
  representable, the two columns are total functions of the hour (so they are
  never NaN and can never influence a `dropna`), and no claim mentions their
  values.  The sibling columns `day_of_week` / `month` (plain ints) are kept
  and carry the same "engineered column" role in every NaN argument.
* The store collection is keyed by (location_id, event_timestamp); the engine
  works with the single entity `location_id = "karachi"` throughout, so the
  constant entity key is dropped from the record model and the store is a list
  of records keyed by `event_timestamp` alone.
* `pandas.sort_values("timestamp")` is modelled as the stable sort by the
  timestamp column: enumerate the distinct timestamps in increasing order and
  emit, for each, the rows carrying it in input order.
-/

/-- Asia/Karachi is UTC+5 with no daylight saving. -/
def tzOffsetHours : Int := 5

/-- `HISTORY_HOURS_FOR_FEATURES = 72` in hourly_ingestion_catchup.py. -/
def historyHoursForFeatures : Int := 72

/-- The raw measurement columns (`RAW_AIR_COLS ++ RAW_WEATHER_COLS`), one
`Option ℚ` cell per column; `none` is a pandas NaN / Mongo null. -/
structure Raw where
  pm10 : Option ℚ
  pm2_5 : Option ℚ
  carbon_monoxide : Option ℚ
  nitrogen_dioxide : Option ℚ
  sulphur_dioxide : Option ℚ
  ozone : Option ℚ
  us_aqi : Option ℚ
  temperature_2m : Option ℚ
  relative_humidity_2m : Option ℚ
  wind_speed_10m : Option ℚ
  surface_pressure : Option ℚ
deriving DecidableEq

/-- The same eleven columns with every cell non-null (rows that survived the
cleaner's final `dropna`). -/
structure RawQ where
  pm10 : ℚ
  pm2_5 : ℚ
  carbon_monoxide : ℚ
  nitrogen_dioxide : ℚ
  sulphur_dioxide : ℚ
  ozone : ℚ
  us_aqi : ℚ
  temperature_2m : ℚ
  relative_humidity_2m : ℚ
  wind_speed_10m : ℚ
  surface_pressure : ℚ
deriving DecidableEq

/-- The `<col>_was_missing` flag columns (stored as int8 0/1; embedded as
`Bool`). -/
structure Flags where
  pm10 : Bool
  pm2_5 : Bool
  carbon_monoxide : Bool
  nitrogen_dioxide : Bool
  sulphur_dioxide : Bool
  ozone : Bool
  us_aqi : Bool
  temperature_2m : Bool
  relative_humidity_2m : Bool
  wind_speed_10m : Bool
  surface_pressure : Bool
deriving DecidableEq

/-- The engineered (derived) columns of a persisted feature record:
time features, lags, strictly-past rolling means and the interaction term.
(`hour_sin` / `hour_cos` omitted, see the header comment.) -/
structure Extra where
  day_of_week : Int
  month : Int
  aqi_lag_1 : ℚ
  aqi_lag_3 : ℚ
  aqi_lag_24 : ℚ
  aqi_roll_6 : ℚ
  aqi_roll_24 : ℚ
  pm25_wind_interaction : ℚ
deriving DecidableEq

/-- One persisted feature-store document (one row per (entity, hour)). -/
structure FeatDoc where
  event_timestamp : Int
  vals : Raw
  flags : Flags
  extra : Extra
deriving DecidableEq

/-- The feature store for the single entity: the documents of the Mongo
collection `aqi_features_hourly` (at most one per hour when well-formed). -/
abbrev Store := List FeatDoc

/-- One freshly fetched raw row (timestamp plus the eleven raw columns). -/
structure RawRow where
  ts : Int
  vals : Raw
deriving DecidableEq

/-- A row of the concatenated history + fresh frame.  History rows carry the
engineered columns read back from the store (`extra = some _`); rows that have
NaN in every engineered column (freshly fetched rows after the column-union of
`pd.concat`, and grid rows inserted by `asfreq`) carry `extra = none`. -/
structure MergedRow where
  ts : Int
  vals : Raw
  extra : Option Extra
deriving DecidableEq

/-- A dataframe entering the cleaner.  `hasTimestampCol` records whether the
frame has a `timestamp` column at all; `hasExtra` records whether the frame's
column set includes the engineered columns (pd.concat unions column sets, so
this holds exactly when the history side of the concat was nonempty). -/
structure MergedFrame where
  hasTimestampCol : Bool
  hasExtra : Bool
  rows : List MergedRow
deriving DecidableEq

/-- A fully clean row produced by `clean_aqi_weather_data`: hourly timestamp,
all raw cells non-null, plus the freshly recomputed `_was_missing` flags. -/
structure CleanRow where
  ts : Int
  vals : RawQ
  flags : Flags
deriving DecidableEq

/-- All-none raw cells (a row inserted by `asfreq` for a missing hour). -/
def blankRaw : Raw :=
  { pm10 := none, pm2_5 := none, carbon_monoxide := none,
    nitrogen_dioxide := none, sulphur_dioxide := none, ozone := none,
    us_aqi := none, temperature_2m := none, relative_humidity_2m := none,
    wind_speed_10m := none, surface_pressure := none }

/-- Wrap every (non-null) cleaned cell back as a present cell. -/
def someRaw (q : RawQ) : Raw :=
  { pm10 := some q.pm10, pm2_5 := some q.pm2_5,
    carbon_monoxide := some q.carbon_monoxide,
    nitrogen_dioxide := some q.nitrogen_dioxide,
    sulphur_dioxide := some q.sulphur_dioxide, ozone := some q.ozone,
    us_aqi := some q.us_aqi, temperature_2m := some q.temperature_2m,
    relative_humidity_2m := some q.relative_humidity_2m,
    wind_speed_10m := some q.wind_speed_10m,
    surface_pressure := some q.surface_pressure }

/-- All eleven raw cells non-null?  (the row survives a `dropna` over the raw
columns). -/
def allSome (v : Raw) : Option RawQ := do
  let a ← v.pm10
  let b ← v.pm2_5
  let c ← v.carbon_monoxide
  let d ← v.nitrogen_dioxide
  let e ← v.sulphur_dioxide
  let f ← v.ozone
  let g ← v.us_aqi
  let h ← v.temperature_2m
  let i ← v.relative_humidity_2m
  let j ← v.wind_speed_10m
  let k ← v.surface_pressure
  pure { pm10 := a, pm2_5 := b, carbon_monoxide := c, nitrogen_dioxide := d,
         sulphur_dioxide := e, ozone := f, us_aqi := g, temperature_2m := h,
         relative_humidity_2m := i, wind_speed_10m := j, surface_pressure := k }

/-- `out[f"{col}_was_missing"] = out[col].isna()`, computed before any filling. -/
def flagsOf (v : Raw) : Flags :=
  { pm10 := v.pm10.isNone, pm2_5 := v.pm2_5.isNone,
    carbon_monoxide := v.carbon_monoxide.isNone,
    nitrogen_dioxide := v.nitrogen_dioxide.isNone,
    sulphur_dioxide := v.sulphur_dioxide.isNone, ozone := v.ozone.isNone,
    us_aqi := v.us_aqi.isNone, temperature_2m := v.temperature_2m.isNone,
    relative_humidity_2m := v.relative_humidity_2m.isNone,
    wind_speed_10m := v.wind_speed_10m.isNone,
    surface_pressure := v.surface_pressure.isNone }

/-- Default raw values (used only as a `getD` fallback in statements). -/
def rawQdef : RawQ :=
  { pm10 := 0, pm2_5 := 0, carbon_monoxide := 0, nitrogen_dioxide := 0,
    sulphur_dioxide := 0, ozone := 0, us_aqi := 0, temperature_2m := 0,
    relative_humidity_2m := 0, wind_speed_10m := 0, surface_pressure := 0 }

/-- Default flags (used only as a `getD` fallback in statements). -/
def flagsDef : Flags :=
  { pm10 := false, pm2_5 := false, carbon_monoxide := false,
    nitrogen_dioxide := false, sulphur_dioxide := false, ozone := false,
    us_aqi := false, temperature_2m := false, relative_humidity_2m := false,
    wind_speed_10m := false, surface_pressure := false }

/-- Default clean row (used only as a `getD` fallback in statements). -/
def cdef : CleanRow := { ts := 0, vals := rawQdef, flags := flagsDef }

/- ### Stable sort by an integer key (pandas `sort_values`) -/

/-- Concatenate, for each key in `ks` in order, the rows of `l` carrying that
key (in input order). -/
def gatherBlocks (key : α → Int) (l : List α) : List Int → List α
  | [] => []
  | t :: ts => l.filter (fun r => decide (key r = t)) ++ gatherBlocks key l ts

/-- Stable sort by `key`: distinct keys in increasing order, rows of equal key
kept in input order. -/
def sortByKey (key : α → Int) (l : List α) : List α :=
  gatherBlocks key l (List.insertionSort (fun a b => a ≤ b) (l.map key).dedup)

/- ### Calendar helpers (`dt.dayofweek`, `dt.month` on hour timestamps) -/

/-- pandas `dayofweek` (Monday = 0) of an epoch-hour stamp; 1970-01-01 was a
Thursday (= 3). -/
def dayOfWeek (t : Int) : Int := (t.ediv 24 + 3).emod 7

/-- Gregorian month of an epoch-day number (standard civil-from-days
algorithm). -/
def monthFromDays (z0 : Int) : Int :=
  let z := z0 + 719468
  let era := z.ediv 146097
  let doe := z - era * 146097
  let yoe := (doe - doe.ediv 1460 + doe.ediv 36524 - doe.ediv 146096).ediv 365
  let doy := doe - (365 * yoe + yoe.ediv 4 - yoe.ediv 100)
  let mp := (5 * doy + 2).ediv 153
  if mp < 10 then mp + 3 else mp - 9

/-- pandas `dt.month` of an epoch-hour stamp. -/
def monthOf (t : Int) : Int := monthFromDays (t.ediv 24)

/- ### clean_aqi_weather_data (preprocessing/clean_data.py) -/

/-- Last index `j ≤ i` whose cell is non-null. -/
def prevIdx (c : ℕ → Option ℚ) (i : ℕ) : Option ℕ :=
  ((List.range (i + 1)).filter (fun j => (c j).isSome)).getLast?

/-- First index `j ≥ i` (within the grid of length `n`) whose cell is
non-null. -/
def nextIdx (c : ℕ → Option ℚ) (n i : ℕ) : Option ℕ :=
  ((List.range n).filter (fun j => decide (i ≤ j) && (c j).isSome)).head?

/-- `Series.interpolate(method="time", limit=lim, limit_direction="both")` on
an hourly grid (so time-weighted = position-linear): a null cell within `lim`
of a valid cell on either side is filled, linearly between its two bracketing
valid values, flat off the ends of the series. -/
def interpTime (c : ℕ → Option ℚ) (lim n i : ℕ) : Option ℚ :=
  match c i with
  | some v => some v
  | none =>
    let valAt := fun j => (c j).getD 0
    match prevIdx c i, nextIdx c n i with
    | some p, some q =>
        if i - p ≤ lim ∨ q - i ≤ lim then
          some (valAt p +
            (valAt q - valAt p) * (((i : ℚ) - (p : ℚ)) / ((q : ℚ) - (p : ℚ))))
        else none
    | some p, none => if i - p ≤ lim then some (valAt p) else none
    | none, some q => if q - i ≤ lim then some (valAt q) else none
    | none, none => none

/-- `Series.ffill(limit=lim)`: a null cell is filled with the last valid value
when that value is at most `lim` positions back. -/
def ffill1 (c : ℕ → Option ℚ) (lim i : ℕ) : Option ℚ :=
  match c i with
  | some v => some v
  | none =>
    match prevIdx c i with
    | some p => if i - p ≤ lim then c p else none
    | none => none

/-- Smallest timestamp of a (nonempty) frame; `asfreq` regrids from here. -/
def gridLo : List MergedRow → Int
  | [] => 0
  | r :: rs => rs.foldl (fun m x => min m x.ts) r.ts

/-- Largest timestamp of a (nonempty) frame. -/
def gridHi : List MergedRow → Int
  | [] => 0
  | r :: rs => rs.foldl (fun m x => max m x.ts) r.ts

/-- Number of hourly grid positions `asfreq("h")` produces. -/
def gridLen (rows : List MergedRow) : ℕ :=
  match rows with
  | [] => 0
  | _ :: _ => (gridHi rows - gridLo rows + 1).toNat

/-- Row of the hourly grid at position `k`: the frame's (unique) row at hour
`lo + k`, or an all-NaN row inserted by `asfreq` for a missing hour. -/
def gridRow (rows : List MergedRow) (lo : Int) (k : ℕ) : MergedRow :=
  match rows.find? (fun r => decide (r.ts = lo + (k : Int))) with
  | some r => r
  | none => { ts := lo + (k : Int), vals := blankRaw, extra := none }

/-- One raw column of the grid, as a function of the grid position. -/
def gridCol (rows : List MergedRow) (lo : Int) (proj : Raw → Option ℚ)
    (n j : ℕ) : Option ℚ :=
  if j < n then proj (gridRow rows lo j).vals else none

/-- The raw cells of grid position `i` after both fill passes: the four
weather columns (`WEATHER_COLS`) time-interpolated with gap limit `maxGap`,
the seven pollutant/AQI columns (`POLLUTANT_COLS`) forward-filled with limit
`ffillLim`. -/
def filledRaw (rows : List MergedRow) (lo : Int) (n maxGap ffillLim i : ℕ) :
    Raw :=
  { pm10 := ffill1 (gridCol rows lo (fun x => x.pm10) n) ffillLim i,
    pm2_5 := ffill1 (gridCol rows lo (fun x => x.pm2_5) n) ffillLim i,
    carbon_monoxide :=
      ffill1 (gridCol rows lo (fun x => x.carbon_monoxide) n) ffillLim i,
    nitrogen_dioxide :=
      ffill1 (gridCol rows lo (fun x => x.nitrogen_dioxide) n) ffillLim i,
    sulphur_dioxide :=
      ffill1 (gridCol rows lo (fun x => x.sulphur_dioxide) n) ffillLim i,
    ozone := ffill1 (gridCol rows lo (fun x => x.ozone) n) ffillLim i,
    us_aqi := ffill1 (gridCol rows lo (fun x => x.us_aqi) n) ffillLim i,
    temperature_2m :=
      interpTime (gridCol rows lo (fun x => x.temperature_2m) n) maxGap n i,
    relative_humidity_2m :=
      interpTime (gridCol rows lo (fun x => x.relative_humidity_2m) n) maxGap n i,
    wind_speed_10m :=
      interpTime (gridCol rows lo (fun x => x.wind_speed_10m) n) maxGap n i,
    surface_pressure :=
      interpTime (gridCol rows lo (fun x => x.surface_pressure) n) maxGap n i }

/-- The cleaner's per-position output: missingness flags from the unfilled
cells, the two fill passes, and the final `dropna` keeping the row only if
every column is non-null — including, when the frame carries the engineered
columns, those columns (which no fill step ever touches: the interpolation
runs over the weather columns and the forward fill over the pollutant
columns only). -/
def cleanRowAt (hasExtra : Bool) (rows : List MergedRow) (lo : Int)
    (n maxGap ffillLim i : ℕ) : Option CleanRow :=
  if hasExtra && (gridRow rows lo i).extra.isNone then none
  else
    (allSome (filledRaw rows lo n maxGap ffillLim i)).map
      (fun q => { ts := (gridRow rows lo i).ts, vals := q,
                  flags := flagsOf (gridRow rows lo i).vals })

/-- The cleaner's output frame, once the input is sorted and known duplicate
free. -/
def cleanSorted (hasExtra : Bool) (rows : List MergedRow)
    (maxGap ffillLim : ℕ) : List CleanRow :=
  (List.range (gridLen rows)).filterMap
    (cleanRowAt hasExtra rows (gridLo rows) (gridLen rows) maxGap ffillLim)

/-- Failure modes of `clean_aqi_weather_data`: the explicit ValueError for a
missing `timestamp` column, and the ValueError pandas `asfreq` raises on a
duplicated timestamp index. -/
inductive CleanErr where
  | missingTimestampCol
  | duplicateTimestamps
deriving DecidableEq

/-- `clean_aqi_weather_data(df, freq="h", max_weather_gap_hours, pollutant_ffill_limit)`:
sort by timestamp, regrid to hourly frequency, record missingness flags,
interpolate small weather gaps, short-forward-fill pollutants, then drop every
row still containing a null in any column. -/
def clean (f : MergedFrame) (maxGap ffillLim : ℕ) :
    Except CleanErr (List CleanRow) :=
  if f.hasTimestampCol = false then .error .missingTimestampCol
  else if ((sortByKey (fun m => m.ts) f.rows).map (fun m => m.ts)).Nodup then
    .ok (cleanSorted f.hasExtra (sortByKey (fun m => m.ts) f.rows)
      maxGap ffillLim)
  else .error .duplicateTimestamps

/- ### build_feature_store_rows (feature_engineering/feature_pipeline.py) -/

/-- The target-signal column of the sorted cleaned frame, by position. -/
def cleanAqiAt (s : List CleanRow) (j : ℕ) : Option ℚ :=
  (s.get? j).map (fun c => c.vals.us_aqi)

/-- `us_aqi.shift(k)` at position `j`. -/
def lagF (s : List CleanRow) (k j : ℕ) : Option ℚ :=
  if k ≤ j then cleanAqiAt s (j - k) else none

/-- The window `us_aqi.shift(1).rolling(w)` sees at position `j`: the `w`
cells at positions `j - w, …, j - 1`. -/
def rollWin (s : List CleanRow) (w j : ℕ) : List (Option ℚ) :=
  (List.range w).map (fun k => cleanAqiAt s (j - w + k))

/-- The value a defined `rollF` cell carries: the arithmetic mean of the
strictly-past window. -/
def rollMean (s : List CleanRow) (w j : ℕ) : ℚ :=
  ((rollWin s w j).map (fun o => o.getD 0)).sum / (w : ℚ)

/-- `us_aqi.shift(1).rolling(window=w, min_periods=w).mean()` at position `j`:
defined only when the full strictly-past window exists and is non-null. -/
def rollF (s : List CleanRow) (w j : ℕ) : Option ℚ :=
  if decide (w ≤ j) && (rollWin s w j).all (fun o => o.isSome) then
    some (((rollWin s w j).map (fun o => o.getD 0)).sum / (w : ℚ))
  else none

/-- One output row of the feature builder at position `i` of the sorted
cleaned frame; `none` exactly when the final `dropna` over the stored columns
(the lag and rolling columns are the only ones that can be null) drops the
row. -/
def mkFeatRow (s : List CleanRow) (i : ℕ) : Option FeatDoc :=
  (s.get? i).bind (fun c =>
  (lagF s 1 i).bind (fun l1 =>
  (lagF s 3 i).bind (fun l3 =>
  (lagF s 24 i).bind (fun l24 =>
  (rollF s 6 i).bind (fun r6 =>
  (rollF s 24 i).map (fun r24 =>
    { event_timestamp := c.ts, vals := someRaw c.vals, flags := c.flags,
      extra :=
        { day_of_week := dayOfWeek c.ts, month := monthOf c.ts,
          aqi_lag_1 := l1, aqi_lag_3 := l3, aqi_lag_24 := l24,
          aqi_roll_6 := r6, aqi_roll_24 := r24,
          pm25_wind_interaction :=
            c.vals.pm2_5 / (c.vals.wind_speed_10m + 1) } }))))))

/-- `build_feature_store_rows`: sort by timestamp, engineer the time, lag,
rolling and interaction columns, select the stored columns and drop rows with
any null. -/
def buildFeatureStoreRows (df : List CleanRow) : List FeatDoc :=
  let s := sortByKey (fun c => c.ts) df
  (List.range s.length).filterMap (mkFeatRow s)

/- ### Mongo helpers of hourly_ingestion_catchup.py -/

/-- Maximum of a nonempty list of timestamps. -/
def maxTsList : List Int → Option Int
  | [] => none
  | t :: ts => some (ts.foldl max t)

/-- `_latest_event_timestamp`: the largest persisted `event_timestamp` (sort
descending, limit 1), or `none` for an empty store. -/
def latestTs (store : Store) : Option Int :=
  maxTsList (store.map (fun d => d.event_timestamp))

/-- `_read_history_from_mongo`: the persisted records with
`endTs - hours ≤ event_timestamp < endTs`, ascending; the entity key is
dropped and `event_timestamp` is re-exposed as the `timestamp` column. -/
def readHistory (store : Store) (endTs hours : Int) : List FeatDoc :=
  sortByKey (fun d => d.event_timestamp)
    (store.filter (fun d =>
      decide (endTs - hours ≤ d.event_timestamp) &&
      decide (d.event_timestamp < endTs)))

/-- Replace the first document carrying the key of `r` (Mongo `UpdateOne` with
a full-document `$set` touches at most one document). -/
def replaceFirst : Store → FeatDoc → Store
  | [], _ => []
  | d :: ds, r =>
      if d.event_timestamp = r.event_timestamp then r :: ds
      else d :: replaceFirst ds r

/-- One `UpdateOne({location_id, event_timestamp}, {$set: doc}, upsert=True)`:
insert when the key is absent, overwrite when present.  The returned count
mirrors `upserted_count + modified_count`: an insert counts 1, an overwrite
counts 1 only if it actually changes the document. -/
def upsertOne (store : Store) (r : FeatDoc) : Store × ℕ :=
  match store.find? (fun d => decide (d.event_timestamp = r.event_timestamp)) with
  | some d => (replaceFirst store r, if d = r then 0 else 1)
  | none => (store ++ [r], 1)

/-- `_upsert_features`: upsert every row, accumulating the applied count.
(The 1000-row batching only bounds request sizes; for rows with distinct keys
the keyed effect equals this sequential fold.) -/
def upsertFeatures (store : Store) (rows : List FeatDoc) : Store × ℕ :=
  rows.foldl (fun acc r =>
    let s := upsertOne acc.1 r
    (s.1, acc.2 + s.2)) (store, 0)

/- ### The catch-up run (hourly_ingestion_catchup.py run) -/

/-- Transport-level failure of the Open-Meteo fetch
(`response.raise_for_status()` raising inside `fetch_air_quality` /
`fetch_weather`). -/
inductive FetchErr where
  | httpError
deriving DecidableEq

/-- Classified failures the catch-up run can signal to its caller. -/
inductive RunErr where
  | emptyStore
  | fetchFailed (e : FetchErr)
  | cleanFailed (e : CleanErr)
deriving DecidableEq

instance {ε α : Type} [DecidableEq ε] [DecidableEq α] :
    DecidableEq (Except ε α) := fun a b =>
  match a, b with
  | .error e, .error f =>
      if h : e = f then isTrue (by rw [h])
      else isFalse (fun hh => h (Except.error.inj hh))
  | .error _, .ok _ => isFalse (fun hh => Except.noConfusion hh)
  | .ok _, .error _ => isFalse (fun hh => Except.noConfusion hh)
  | .ok a, .ok b =>
      if h : a = b then isTrue (by rw [h])
      else isFalse (fun hh => h (Except.ok.inj hh))

/-- A history record re-expressed on the `timestamp` column, engineered
columns still attached (the Mongo projection keeps every field but `_id` and
`location_id`). -/
def docToMerged (d : FeatDoc) : MergedRow :=
  { ts := d.event_timestamp, vals := d.vals, extra := some d.extra }

/-- A freshly fetched raw row inside the concatenated frame: after the column
union of `pd.concat` its engineered cells are all NaN. -/
def rawToMerged (r : RawRow) : MergedRow :=
  { ts := r.ts, vals := r.vals, extra := none }

/-- `drop_duplicates(subset=["timestamp"], keep="last")`: keep a row only when
no later row carries the same timestamp. -/
def dedupKeepLast : List MergedRow → List MergedRow
  | [] => []
  | x :: xs =>
      if xs.any (fun y => decide (y.ts = x.ts)) then dedupKeepLast xs
      else x :: dedupKeepLast xs

/-- What pandas guarantees about `sort_values(by="timestamp")` with the
default `kind="quicksort"`: the output is some permutation of the input that
is ordered by the key.  The relative order of rows with equal timestamps is
NOT specified — the default quicksort is documented as not stable — so any
sorted permutation is a possible output of the program. -/
def IsSortValuesOutput (key : MergedRow → Int) (l sorted : List MergedRow) :
    Prop :=
  sorted.Perm l ∧ sorted.Pairwise (fun a b => key a ≤ key b)

/-- The merge + dedup step of `run` with the `sort_values` output left as a
parameter (any list satisfying `IsSortValuesOutput` of the concatenated
frame): concatenate history and fresh rows (column-set union), floor
timestamps (identity at hour granularity), sort by timestamp, drop duplicate
hours keeping the last row per hour. -/
def mergeDedupWith (hist : List FeatDoc) (fresh : List RawRow)
    (sorted : List MergedRow) : MergedFrame :=
  { hasTimestampCol := true
    hasExtra := !hist.isEmpty
    rows := dedupKeepLast sorted }

/-- The merge + dedup step of `run`, executable form: instantiates the
unspecified `sort_values` tie order with the stable resolution `sortByKey`
(equal hours kept in concat order).  This fixes one concrete behavior among
those the program's unstable sort permits; every hour that occurs at most
once in the concatenated frame — the case on every `run` path, where the
history window `[start - 72, start)` and the fresh window `[start, now]` are
disjoint — is unaffected by the choice.  Facts that do depend on the tie
order are stated over `mergeDedupWith` for an arbitrary
`IsSortValuesOutput`. -/
def mergeDedup (hist : List FeatDoc) (fresh : List RawRow) : MergedFrame :=
  mergeDedupWith hist fresh
    (sortByKey (fun m => m.ts) (hist.map docToMerged ++ fresh.map rawToMerged))

/-- Everything one invocation of the catch-up `run` does: its outcome (normal
return or raised error), whether it reached the upstream fetch, how many rows
the store write applied, and the store it leaves behind. -/
structure RunOutcome where
  result : Except RunErr Unit
  fetchCalled : Bool
  written : ℕ
  store : Store
deriving DecidableEq

/-- The upstream source (`fetch_karachi_aqi_weather`): given a local civil
start/end date it either fails in transport or returns raw hourly rows stamped
in Karachi local clock time. -/
abbrev SourceFn := Int → Int → Except FetchErr (List RawRow)

/-- Last two stages of `run()`: restrict the engineered rows to the missing
UTC window `[startMissing, nowUtcHour]` and upsert the survivors. -/
def windowFilterWrite (store : Store) (startMissing nowUtcHour : Int)
    (dfClean : List CleanRow) : RunOutcome :=
  let toWrite := (buildFeatureStoreRows dfClean).filter
    (fun d => decide (startMissing ≤ d.event_timestamp) &&
              decide (d.event_timestamp ≤ nowUtcHour))
  let res := upsertFeatures store toWrite
  { result := .ok (), fetchCalled := true, written := res.2, store := res.1 }

/-- Middle stages of `run()`, given the fetched rows already converted to
naive UTC and filtered to the missing window: return early (successfully, with
a warning) if nothing remains; otherwise read 72 h of trailing history,
concatenate + floor + sort + de-duplicate keeping the last row per hour,
clean, engineer, filter to the window and upsert. -/
def runWithNewRaw (store : Store) (startMissing nowUtcHour : Int)
    (newRaw : List RawRow) : RunOutcome :=
  if newRaw.isEmpty then
    { result := .ok (), fetchCalled := true, written := 0, store := store }
  else
    match clean (mergeDedup
        (readHistory store startMissing historyHoursForFeatures) newRaw) 3 1 with
    | .error e =>
        { result := .error (.cleanFailed e), fetchCalled := true,
          written := 0, store := store }
    | .ok dfClean => windowFilterWrite store startMissing nowUtcHour dfClean

/-- `run()` once the latest persisted hour is known: no-op when the window
`[lastTs + 1, nowUtcHour]` is empty; otherwise fetch the covering local civil
date range, convert the fetched local stamps to naive UTC, filter to the
window and continue.  A transport failure of the fetch propagates. -/
def runFromLast (store : Store) (lastTs nowUtcHour : Int) (src : SourceFn) :
    RunOutcome :=
  -- start_missing_utc = last stored hour + 1
  if nowUtcHour < lastTs + 1 then
    { result := .ok (), fetchCalled := false, written := 0, store := store }
  else
    match src ((lastTs + 1 + tzOffsetHours).ediv 24)
        ((nowUtcHour + tzOffsetHours).ediv 24) with
    | .error e =>
        { result := .error (.fetchFailed e), fetchCalled := true,
          written := 0, store := store }
    | .ok fetched =>
        runWithNewRaw store (lastTs + 1) nowUtcHour
          ((fetched.map (fun r => { r with ts := r.ts - tzOffsetHours })).filter
            (fun r => decide (lastTs + 1 ≤ r.ts) &&
                      decide (r.ts ≤ nowUtcHour)))

/-- `run()` of hourly_ingestion_catchup.py, at hour granularity: resolve the
missing UTC window from the latest persisted hour and the current hour (an
empty store is a fatal precondition failure, raised before any fetch), then
synchronize it. -/
def run (store : Store) (nowUtcHour : Int) (src : SourceFn) : RunOutcome :=
  match latestTs store with
  | none => { result := .error .emptyStore, fetchCalled := false,
              written := 0, store := store }
  | some lastTs => runFromLast store lastTs nowUtcHour src

/- ### _get_aqi_history and _build_feature_doc (hourly_ingestion.py) -/

/-- Failure modes of `_build_feature_doc`. -/
inductive DocErr where
  | criticalMissing
  | nullAqiInHistory
  | insufficientHistory
deriving DecidableEq

/-- `_get_aqi_history`: the `us_aqi` values of the records with
`endTs - hours ≤ event_timestamp < endTs`, ascending (`float(d["us_aqi"])`
raises if a stored value is null). -/
def getAqiHistory (store : Store) (endTs hours : Int) :
    Except DocErr (List ℚ) :=
  let docs := sortByKey (fun d => d.event_timestamp)
    (store.filter (fun d =>
      decide (endTs - hours ≤ d.event_timestamp) &&
      decide (d.event_timestamp < endTs)))
  if docs.all (fun d => d.vals.us_aqi.isSome) then
    .ok (docs.map (fun d => d.vals.us_aqi.getD 0))
  else .error .nullAqiInHistory

/-- `_build_feature_doc`: one document for the hour of `raw` (a row stamped in
Karachi local time, stored at its UTC hour).  Raw cells are copied with
missingness flags; a missing critical cell raises; lags and rolling means come
from the last 24 persisted hours, raising when fewer than 24 exist. -/
def buildFeatureDoc (raw : RawRow) (store : Store) : Except DocErr FeatDoc :=
  -- raw.ts is the Karachi-local hour; the stored hour is raw.ts - tzOffsetHours
  match raw.vals.us_aqi, raw.vals.pm2_5, raw.vals.wind_speed_10m with
  | some _aq, some pm, some wind =>
      (getAqiHistory store (raw.ts - tzOffsetHours) 24).bind (fun hist =>
        if hist.length < 24 then .error .insufficientHistory
        else
          .ok { event_timestamp := raw.ts - tzOffsetHours, vals := raw.vals,
                flags := flagsOf raw.vals,
                extra :=
                  { day_of_week := dayOfWeek raw.ts, month := monthOf raw.ts,
                    aqi_lag_1 := hist.getD (hist.length - 1) 0,
                    aqi_lag_3 := hist.getD (hist.length - 3) 0,
                    aqi_lag_24 := hist.getD 0 0,
                    aqi_roll_6 := (hist.drop (hist.length - 6)).sum /
                      ((hist.drop (hist.length - 6)).length : ℚ),
                    aqi_roll_24 := hist.sum / (hist.length : ℚ),
                    pm25_wind_interaction := pm / (wind + 1) } })
  | _, _, _ => .error .criticalMissing

/-- Fold of repeated catch-up invocations: each scheduled run sees a current
hour and a source and leaves its store to the next. -/
def runSeq (store : Store) : List (Int × SourceFn) → Store
  | [] => store
  | p :: ps => runSeq (run store p.1 p.2).store ps

/-- The persisted keys (the store is single-entity, so the key is the hour). -/
def keysOf (s : Store) : List Int := s.map (fun d => d.event_timestamp)

/-- Store well-formedness: at most one record per (entity, hour) key — the
invariant the unique compound index enforces. -/
def wfStore (s : Store) : Prop := (keysOf s).Nodup

/- ### Concrete sample data for the evaluated scenarios -/

/-- A fixed, fully populated set of raw measurements. -/
def sampleVals : RawQ :=
  { pm10 := 1, pm2_5 := 10, carbon_monoxide := 1, nitrogen_dioxide := 1,
    sulphur_dioxide := 1, ozone := 1, us_aqi := 50, temperature_2m := 1,
    relative_humidity_2m := 1, wind_speed_10m := 2, surface_pressure := 1 }

/-- All-zero engineered columns for sample history documents. -/
def extraDef : Extra :=
  { day_of_week := 0, month := 0, aqi_lag_1 := 0, aqi_lag_3 := 0,
    aqi_lag_24 := 0, aqi_roll_6 := 0, aqi_roll_24 := 0,
    pm25_wind_interaction := 0 }

/-- A fully populated persisted record at hour `t`. -/
def sampleDoc (t : Int) : FeatDoc :=
  { event_timestamp := t, vals := someRaw sampleVals, flags := flagsDef,
    extra := extraDef }

/-- A default document (only a `getD` fallback in closed statements). -/
def docDef : FeatDoc :=
  { event_timestamp := 0, vals := someRaw rawQdef, flags := flagsDef,
    extra := extraDef }

/-- A fully populated fresh raw row stamped with local hour `t`. -/
def sampleRow (t : Int) : RawRow := { ts := t, vals := someRaw sampleVals }

/-- C1 scenario store: 24 consecutive fully valid hours, 1 … 24 (latest
`T = 24`). -/
def storeC1 : Store := (List.range 24).map (fun k => sampleDoc (1 + (k : Int)))

/-- C1 scenario source: complete raw data for the local hours covering the
missing UTC window `(24, 27]` (local stamps 30, 31, 32 = UTC 25, 26, 27). -/
def srcC1 : SourceFn :=
  fun _ _ => .ok ((List.range 3).map (fun k => sampleRow (30 + (k : Int))))

/-- C3 scenario store: only 3 persisted hours, 98 … 100. -/
def storeC3 : Store := [sampleDoc 98, sampleDoc 99, sampleDoc 100]

/-- C3 scenario source: a complete row for the single missing hour 101
(local stamp 106). -/
def srcC3 : SourceFn := fun _ _ => .ok [sampleRow 106]

/-- A source whose fetch always fails in transport. -/
def srcErr : SourceFn := fun _ _ => .error .httpError

/-- A source that succeeds with no rows at all. -/
def srcNone : SourceFn := fun _ _ => .ok []

/-- C4/C9 builder input: 25 clean hourly rows with `us_aqi` equal to the hour
index. -/
def dfW : List CleanRow :=
  (List.range 25).map (fun k =>
    { ts := (k : Int), vals := { rawQdef with us_aqi := (k : ℚ), pm2_5 := 7 },
      flags := flagsDef })

/-- The single row the builder emits from `dfW`. -/
def dW : FeatDoc := (buildFeatureStoreRows dfW).getD 0 docDef

/-- C9 doc-builder scenario store: 24 persisted hours 0 … 23. -/
def store9W : Store := (List.range 24).map (fun k => sampleDoc (k : Int))

/-- The document `_build_feature_doc` produces for local hour 29 (UTC hour
24) over `store9W`. -/
def doc9W : FeatDoc :=
  (buildFeatureDoc (sampleRow 29) store9W).toOption.getD docDef

/-- C2 scenario: one persisted hour 50, refetched with a corrected value. -/
def histW : List FeatDoc := [sampleDoc 50]

/-- The corrected raw values the source reissues for hour 50. -/
def correctedVals : RawQ := { sampleVals with us_aqi := 77 }

/-- The freshly fetched row for hour 50 carrying the correction. -/
def frW : RawRow := { ts := 50, vals := someRaw correctedVals }

/-- C2 scenario fresh rows: the corrected hour 50 plus a new hour 51. -/
def freshW : List RawRow := [frW, sampleRow 51]

/-- A sorted permutation of the C2 concatenated frame in which the persisted
hour-50 row comes after the freshly fetched one — a tie order the program's
unstable sort permits. -/
def sortedBad : List MergedRow :=
  [rawToMerged frW, docToMerged (sampleDoc 50), rawToMerged (sampleRow 51)]

/-! ## Generic lemmas about the list-level building blocks -/

lemma mem_gatherBlocks {α : Type} (key : α → Int) (l : List α) (ks : List Int)
    (x : α) : x ∈ gatherBlocks key l ks ↔ ∃ t ∈ ks, key x = t ∧ x ∈ l := by
  induction ks with
  | nil => simp [gatherBlocks]
  | cons t ts ih =>
    simp only [gatherBlocks, List.mem_append, List.mem_filter, ih,
      List.mem_cons, decide_eq_true_eq]
    constructor
    · rintro (⟨hx, hk⟩ | ⟨u, hu, hk, hx⟩)
      · exact ⟨t, Or.inl rfl, hk, hx⟩
      · exact ⟨u, Or.inr hu, hk, hx⟩
    · rintro ⟨u, (rfl | hu), hk, hx⟩
      · exact Or.inl ⟨hx, hk⟩
      · exact Or.inr ⟨u, hu, hk, hx⟩

lemma mem_sortByKey {α : Type} (key : α → Int) (l : List α) (x : α) :
    x ∈ sortByKey key l ↔ x ∈ l := by
  unfold sortByKey
  rw [mem_gatherBlocks]
  constructor
  · rintro ⟨t, _, _, hx⟩
    exact hx
  · intro hx
    refine ⟨key x, ?_, rfl, hx⟩
    exact (List.perm_insertionSort _ _).mem_iff.mpr
      (List.mem_dedup.mpr (List.mem_map_of_mem key hx))

lemma gatherBlocks_filter {α : Type} (key : α → Int) (l : List α)
    (ks : List Int) (hnd : ks.Nodup) (h : Int) :
    (gatherBlocks key l ks).filter (fun x => decide (key x = h)) =
      if h ∈ ks then l.filter (fun x => decide (key x = h)) else [] := by
  induction ks with
  | nil => simp [gatherBlocks]
  | cons t ts ih =>
    obtain ⟨hts, hnd2⟩ := List.nodup_cons.mp hnd
    rw [gatherBlocks, List.filter_append, ih hnd2]
    by_cases ht : t = h
    · subst ht
      have h1 : (l.filter (fun x => decide (key x = t))).filter
          (fun x => decide (key x = t)) = l.filter (fun x => decide (key x = t)) := by
        rw [List.filter_filter]
        simp
      rw [h1, if_neg hts, if_pos (List.mem_cons_self t ts), List.append_nil]
    · have h1 : (l.filter (fun x => decide (key x = t))).filter
          (fun x => decide (key x = h)) = [] := by
        rw [List.filter_eq_nil_iff]
        intro x hx
        have := (List.mem_filter.mp hx).2
        simp only [decide_eq_true_eq] at this ⊢
        rw [this]
        exact fun hh => ht hh
      rw [h1, List.nil_append]
      have h2 : (h ∈ t :: ts) ↔ (h ∈ ts) := by
        simp only [List.mem_cons]
        constructor
        · rintro (rfl | hh)
          · exact absurd rfl ht
          · exact hh
        · exact Or.inr
      by_cases hm : h ∈ ts
      · rw [if_pos hm, if_pos (h2.mpr hm)]
      · rw [if_neg hm, if_neg (fun hh => hm (h2.mp hh))]

lemma sortByKey_filter {α : Type} (key : α → Int) (l : List α) (h : Int) :
    (sortByKey key l).filter (fun x => decide (key x = h)) =
      l.filter (fun x => decide (key x = h)) := by
  unfold sortByKey
  have hnd : (List.insertionSort (fun a b => a ≤ b) (l.map key).dedup).Nodup :=
    (List.perm_insertionSort _ _).nodup_iff.mpr (List.nodup_dedup _)
  rw [gatherBlocks_filter key l _ hnd h]
  by_cases hm : h ∈ List.insertionSort (fun a b => a ≤ b) (l.map key).dedup
  · rw [if_pos hm]
  · rw [if_neg hm]
    symm
    rw [List.filter_eq_nil_iff]
    intro x hx
    simp only [decide_eq_true_eq]
    intro hk
    exact hm ((List.perm_insertionSort _ _).mem_iff.mpr
      (List.mem_dedup.mpr (hk ▸ List.mem_map_of_mem key hx)))

lemma dedupKeepLast_subset {l : List MergedRow} {x : MergedRow}
    (hx : x ∈ dedupKeepLast l) : x ∈ l := by
  induction l with
  | nil => exact absurd hx (List.not_mem_nil x)
  | cons y ys ih =>
    rw [dedupKeepLast] at hx
    by_cases hany : ys.any (fun z => decide (z.ts = y.ts))
    · rw [if_pos hany] at hx
      exact List.mem_cons_of_mem y (ih hx)
    · rw [if_neg hany] at hx
      rcases List.mem_cons.mp hx with rfl | hx2
      · exact List.mem_cons_self x ys
      · exact List.mem_cons_of_mem y (ih hx2)

lemma dedupKeepLast_filter (l : List MergedRow) (h : Int) :
    (dedupKeepLast l).filter (fun y => decide (y.ts = h)) =
      ((l.filter (fun y => decide (y.ts = h))).getLast?).toList := by
  induction l with
  | nil => rfl
  | cons x xs ih =>
    rw [dedupKeepLast]
    by_cases hx : x.ts = h
    · by_cases hany : xs.any (fun z => decide (z.ts = x.ts))
      · rw [if_pos hany]
        obtain ⟨z, hz, hzts⟩ := List.any_eq_true.mp hany
        simp only [decide_eq_true_eq] at hzts
        have hzh : z ∈ xs.filter (fun y => decide (y.ts = h)) :=
          List.mem_filter.mpr ⟨hz, by simp [hzts, hx]⟩
        obtain ⟨z0, zs0, hcons⟩ := List.exists_cons_of_ne_nil
          (List.ne_nil_of_mem hzh)
        rw [ih, List.filter_cons_of_pos (by simp [hx]), hcons,
          List.getLast?_cons_cons]
      · rw [if_neg hany]
        have hnil : xs.filter (fun y => decide (y.ts = h)) = [] := by
          rw [List.filter_eq_nil_iff]
          intro z hz hzts
          simp only [decide_eq_true_eq] at hzts
          exact hany (List.any_eq_true.mpr ⟨z, hz, by simp [hzts, hx]⟩)
        rw [List.filter_cons_of_pos (by simp [hx]), ih, hnil,
          List.filter_cons_of_pos (by simp [hx]), hnil]
        rfl
    · have hxf : ∀ t : List MergedRow,
          (x :: t).filter (fun y => decide (y.ts = h)) =
            t.filter (fun y => decide (y.ts = h)) := by
        intro t
        exact List.filter_cons_of_neg (by simp [hx])
      by_cases hany : xs.any (fun z => decide (z.ts = x.ts))
      · rw [if_pos hany, ih, hxf]
      · rw [if_neg hany, hxf, ih, hxf]

lemma foldl_max_choice (l : List Int) (a : Int) :
    l.foldl max a = a ∨ l.foldl max a ∈ l := by
  induction l generalizing a with
  | nil => exact Or.inl rfl
  | cons x xs ih =>
    rw [List.foldl_cons]
    rcases ih (max a x) with h | h
    · rw [h]
      rcases max_choice a x with h2 | h2
      · rw [h2]
        exact Or.inl rfl
      · rw [h2]
        exact Or.inr (List.mem_cons_self x xs)
    · exact Or.inr (List.mem_cons_of_mem x h)

lemma maxTsList_mem {l : List Int} {t : Int} (h : maxTsList l = some t) :
    t ∈ l := by
  cases l with
  | nil => exact absurd h (by simp [maxTsList])
  | cons x xs =>
    rw [maxTsList, Option.some.injEq] at h
    rcases foldl_max_choice xs x with h2 | h2
    · rw [← h, h2]
      exact List.mem_cons_self x xs
    · exact h ▸ List.mem_cons_of_mem x h2

lemma latestTs_mem {s : Store} {t : Int} (h : latestTs s = some t) :
    ∃ d ∈ s, d.event_timestamp = t := by
  have := maxTsList_mem h
  obtain ⟨d, hd, hdt⟩ := List.mem_map.mp this
  exact ⟨d, hd, hdt⟩

/-! ## Lemmas about the store operations -/

lemma keysOf_replaceFirst (s : Store) (r : FeatDoc) :
    keysOf (replaceFirst s r) = keysOf s := by
  induction s with
  | nil => rfl
  | cons d ds ih =>
    rw [replaceFirst]
    by_cases h : d.event_timestamp = r.event_timestamp
    · rw [if_pos h]
      simp only [keysOf, List.map_cons] at *
      rw [h]
    · rw [if_neg h]
      simp only [keysOf, List.map_cons] at *
      rw [ih]

lemma upsertOne_keys (s : Store) (r : FeatDoc) (k : Int) :
    k ∈ keysOf (upsertOne s r).1 ↔
      k ∈ keysOf s ∨ k = r.event_timestamp := by
  unfold upsertOne
  cases hf : s.find? (fun d => decide (d.event_timestamp = r.event_timestamp)) with
  | some d =>
    simp only [keysOf_replaceFirst]
    have hd : d.event_timestamp = r.event_timestamp := by
      have := List.find?_some hf
      simpa using this
    have hdm : d ∈ s := List.mem_of_find?_eq_some hf
    constructor
    · exact Or.inl
    · rintro (h | rfl)
      · exact h
      · rw [← hd]
        exact List.mem_map_of_mem _ hdm
  | none =>
    simp only [keysOf, List.map_append, List.mem_append, List.map_cons,
      List.map_nil, List.mem_singleton]

lemma upsertOne_wf (s : Store) (r : FeatDoc) (h : wfStore s) :
    wfStore (upsertOne s r).1 := by
  unfold upsertOne
  cases hf : s.find? (fun d => decide (d.event_timestamp = r.event_timestamp)) with
  | some d =>
    simpa only [wfStore, keysOf_replaceFirst] using h
  | none =>
    have hnot : ∀ d ∈ s, d.event_timestamp ≠ r.event_timestamp := by
      intro d hd
      have := List.find?_eq_none.mp hf d hd
      simpa using this
    simp only [wfStore, keysOf, List.map_append, List.map_cons, List.map_nil]
    rw [List.nodup_append]
    refine ⟨h, List.nodup_singleton _, ?_⟩
    intro k hk hk2
    obtain ⟨d, hd, hdk⟩ := List.mem_map.mp hk
    rw [List.mem_singleton] at hk2
    exact hnot d hd (hdk.trans hk2)

lemma upsertFeatures_fst (rows : List FeatDoc) : ∀ (s : Store) (c : ℕ),
    (rows.foldl (fun acc r =>
      let t := upsertOne acc.1 r
      (t.1, acc.2 + t.2)) (s, c)).1 = (upsertFeatures s rows).1 := by
  induction rows with
  | nil =>
    intro s c
    rfl
  | cons r rs ih =>
    intro s c
    rw [upsertFeatures]
    simp only [List.foldl_cons]
    rw [ih, ih]

lemma upsertFeatures_cons (s : Store) (r : FeatDoc) (rs : List FeatDoc) :
    (upsertFeatures s (r :: rs)).1 = (upsertFeatures (upsertOne s r).1 rs).1 := by
  rw [upsertFeatures]
  simp only [List.foldl_cons]
  rw [upsertFeatures_fst]

lemma upsertFeatures_keys (rows : List FeatDoc) : ∀ (s : Store) (k : Int),
    k ∈ keysOf (upsertFeatures s rows).1 ↔
      k ∈ keysOf s ∨ k ∈ rows.map (fun r => r.event_timestamp) := by
  induction rows with
  | nil =>
    intro s k
    simp [upsertFeatures]
  | cons r rs ih =>
    intro s k
    rw [upsertFeatures_cons, ih, upsertOne_keys]
    simp only [List.map_cons, List.mem_cons]
    tauto

lemma upsertFeatures_wf (rows : List FeatDoc) : ∀ (s : Store),
    wfStore s → wfStore (upsertFeatures s rows).1 := by
  induction rows with
  | nil =>
    intro s h
    exact h
  | cons r rs ih =>
    intro s h
    rw [upsertFeatures_cons]
    exact ih _ (upsertOne_wf s r h)

lemma run_eq_none {s : Store} {now : Int} {src : SourceFn}
    (h : latestTs s = none) :
    run s now src = { result := .error .emptyStore, fetchCalled := false,
                      written := 0, store := s } := by
  unfold run
  rw [h]

lemma run_eq_some {s : Store} {now : Int} {src : SourceFn} {t : Int}
    (h : latestTs s = some t) :
    run s now src = runFromLast s t now src := by
  unfold run
  rw [h]

lemma runFromLast_eq_noop {s : Store} {t now : Int} {src : SourceFn}
    (h : now < t + 1) :
    runFromLast s t now src =
      { result := .ok (), fetchCalled := false, written := 0, store := s } := by
  unfold runFromLast
  rw [if_pos h]

lemma runFromLast_eq_fetchFailed {s : Store} {t now : Int} {src : SourceFn}
    {e : FetchErr} (h : ¬ now < t + 1)
    (hsrc : src ((t + 1 + tzOffsetHours).ediv 24)
      ((now + tzOffsetHours).ediv 24) = .error e) :
    runFromLast s t now src =
      { result := .error (.fetchFailed e), fetchCalled := true,
        written := 0, store := s } := by
  unfold runFromLast
  rw [if_neg h, hsrc]

lemma runFromLast_eq_withNewRaw {s : Store} {t now : Int} {src : SourceFn}
    {fetched : List RawRow} (h : ¬ now < t + 1)
    (hsrc : src ((t + 1 + tzOffsetHours).ediv 24)
      ((now + tzOffsetHours).ediv 24) = .ok fetched) :
    runFromLast s t now src =
      runWithNewRaw s (t + 1) now
        ((fetched.map (fun r => { r with ts := r.ts - tzOffsetHours })).filter
          (fun r => decide (t + 1 ≤ r.ts) && decide (r.ts ≤ now))) := by
  unfold runFromLast
  rw [if_neg h, hsrc]

lemma runWithNewRaw_store_cases (s : Store) (a b : Int) (newRaw : List RawRow) :
    ((runWithNewRaw s a b newRaw).store = s ∧
      (runWithNewRaw s a b newRaw).written = 0) ∨
      ∃ rows, runWithNewRaw s a b newRaw = windowFilterWrite s a b rows := by
  unfold runWithNewRaw
  by_cases hemp : newRaw.isEmpty
  · rw [if_pos hemp]
    exact Or.inl ⟨rfl, rfl⟩
  · rw [if_neg hemp]
    generalize clean (mergeDedup
      (readHistory s a historyHoursForFeatures) newRaw) 3 1 = res
    cases res with
    | error e => exact Or.inl ⟨rfl, rfl⟩
    | ok dfClean => exact Or.inr ⟨dfClean, rfl⟩

lemma run_store_cases (s : Store) (now : Int) (src : SourceFn) :
    (run s now src).store = s ∨
      ∃ rows, (run s now src).store = (upsertFeatures s rows).1 := by
  cases hl : latestTs s with
  | none =>
    rw [run_eq_none hl]
    exact Or.inl rfl
  | some t =>
    rw [run_eq_some hl]
    by_cases hnow : now < t + 1
    · rw [runFromLast_eq_noop hnow]
      exact Or.inl rfl
    · cases hsrc : src ((t + 1 + tzOffsetHours).ediv 24)
          ((now + tzOffsetHours).ediv 24) with
      | error e =>
        rw [runFromLast_eq_fetchFailed hnow hsrc]
        exact Or.inl rfl
      | ok fetched =>
        rw [runFromLast_eq_withNewRaw hnow hsrc]
        rcases runWithNewRaw_store_cases s (t + 1) now
            ((fetched.map (fun r => { r with ts := r.ts - tzOffsetHours })).filter
              (fun r => decide (t + 1 ≤ r.ts) && decide (r.ts ≤ now))) with
          ⟨h1, _⟩ | ⟨rows, h1⟩
        · rw [h1]
          exact Or.inl rfl
        · rw [h1]
          exact Or.inr ⟨_, rfl⟩

lemma readHistory_mem_bounds {s : Store} {endTs hours : Int} {d : FeatDoc}
    (h : d ∈ readHistory s endTs hours) :
    endTs - hours ≤ d.event_timestamp ∧ d.event_timestamp < endTs ∧ d ∈ s := by
  unfold readHistory at h
  have h2 := (mem_sortByKey _ _ _).mp h
  obtain ⟨hd, hcond⟩ := List.mem_filter.mp h2
  simp only [Bool.and_eq_true, decide_eq_true_eq] at hcond
  exact ⟨hcond.1, hcond.2, hd⟩

lemma readHistory_nonempty {s : Store} {t : Int} (h : latestTs s = some t)
    {hours : Int} (hpos : 1 ≤ hours) :
    readHistory s (t + 1) hours ≠ [] := by
  obtain ⟨d, hd, hdt⟩ := latestTs_mem h
  have : d ∈ readHistory s (t + 1) hours := by
    unfold readHistory
    refine (mem_sortByKey _ _ _).mpr (List.mem_filter.mpr ⟨hd, ?_⟩)
    simp only [Bool.and_eq_true, decide_eq_true_eq, hdt]
    omega
  exact List.ne_nil_of_mem this

lemma mergeDedup_extra_from_hist {hist : List FeatDoc} {fresh : List RawRow}
    {m : MergedRow} (hm : m ∈ (mergeDedup hist fresh).rows)
    (hx : m.extra.isSome) : ∃ d ∈ hist, m.ts = d.event_timestamp := by
  have h1 := dedupKeepLast_subset hm
  have h2 := (mem_sortByKey _ _ _).mp h1
  rcases List.mem_append.mp h2 with h3 | h3
  · obtain ⟨d, hd, hdm⟩ := List.mem_map.mp h3
    refine ⟨d, hd, ?_⟩
    rw [← hdm]
    rfl
  · obtain ⟨r, _, hrm⟩ := List.mem_map.mp h3
    rw [← hrm] at hx
    simp [rawToMerged] at hx

/-! ## Lemmas about the cleaner -/

lemma ffill1_at_some {c : ℕ → Option ℚ} {lim i : ℕ} {v : ℚ}
    (h : c i = some v) : ffill1 c lim i = some v := by
  unfold ffill1
  rw [h]

lemma interpTime_at_some {c : ℕ → Option ℚ} {lim n i : ℕ} {v : ℚ}
    (h : c i = some v) : interpTime c lim n i = some v := by
  unfold interpTime
  rw [h]

lemma gridCol_at {rows : List MergedRow} {lo : Int}
    (proj : Raw → Option ℚ) {n i : ℕ} (h : i < n) :
    gridCol rows lo proj n i = proj (gridRow rows lo i).vals := by
  unfold gridCol
  rw [if_pos h]

lemma gridRow_ts (rows : List MergedRow) (lo : Int) (i : ℕ) :
    (gridRow rows lo i).ts = lo + (i : Int) := by
  unfold gridRow
  cases hf : rows.find? (fun r => decide (r.ts = lo + (i : Int))) with
  | none => rfl
  | some r =>
    have := List.find?_some hf
    simpa using this

lemma gridRow_eq_of_mem {rows : List MergedRow} {lo : Int} {i : ℕ}
    {m : MergedRow} (hnd : (rows.map (fun r => r.ts)).Nodup)
    (hm : m ∈ rows) (hts : m.ts = lo + (i : Int)) :
    gridRow rows lo i = m := by
  unfold gridRow
  cases hf : rows.find? (fun r => decide (r.ts = lo + (i : Int))) with
  | none =>
    exfalso
    have := List.find?_eq_none.mp hf m hm
    simp [hts] at this
  | some r =>
    have hr : r ∈ rows := List.mem_of_find?_eq_some hf
    have hrts : r.ts = lo + (i : Int) := by
      have := List.find?_some hf
      simpa using this
    exact List.inj_on_of_nodup_map hnd hr hm (hrts.trans hts.symm)

lemma allSome_someRaw (q : RawQ) : allSome (someRaw q) = some q := rfl

lemma clean_ok_elim {f : MergedFrame} {a b : ℕ} {out : List CleanRow}
    (hc : clean f a b = .ok out) :
    f.hasTimestampCol = true ∧
    ((sortByKey (fun m => m.ts) f.rows).map (fun m => m.ts)).Nodup ∧
    out = cleanSorted f.hasExtra (sortByKey (fun m => m.ts) f.rows) a b := by
  unfold clean at hc
  by_cases ht : f.hasTimestampCol = false
  · rw [if_pos ht] at hc
    exact absurd hc (by simp)
  · rw [if_neg ht] at hc
    by_cases hnd : ((sortByKey (fun m => m.ts) f.rows).map (fun m => m.ts)).Nodup
    · rw [if_pos hnd] at hc
      refine ⟨by simpa using ht, hnd, ?_⟩
      exact (Except.ok.inj hc).symm
    · rw [if_neg hnd] at hc
      exact absurd hc (by simp)

lemma cleanRowAt_some_elim {hx : Bool} {rows : List MergedRow} {lo : Int}
    {n a b i : ℕ} {c : CleanRow}
    (h : cleanRowAt hx rows lo n a b i = some c) :
    c.ts = lo + (i : Int) ∧
      (hx = true → (gridRow rows lo i).extra.isSome) := by
  unfold cleanRowAt at h
  by_cases hcond : (hx && (gridRow rows lo i).extra.isNone) = true
  · rw [if_pos hcond] at h
    exact absurd h (by simp)
  · rw [if_neg hcond] at h
    obtain ⟨q, _, hcq⟩ := Option.map_eq_some'.mp h
    constructor
    · rw [← hcq, ← gridRow_ts rows lo i]
    · intro hxt
      rw [hxt, Bool.true_and, Bool.not_eq_true, Option.isNone_eq_false_iff]
        at hcond
      exact hcond

lemma clean_ok_mem_extra {f : MergedFrame} {a b : ℕ} {out : List CleanRow}
    (hx : f.hasExtra = true) (hc : clean f a b = .ok out) {c : CleanRow}
    (hm : c ∈ out) : ∃ m ∈ f.rows, m.ts = c.ts ∧ m.extra.isSome := by
  obtain ⟨-, hnd, hout⟩ := clean_ok_elim hc
  rw [hout] at hm
  obtain ⟨i, _, hrow⟩ := List.mem_filterMap.mp hm
  obtain ⟨hcts, hextra⟩ := cleanRowAt_some_elim hrow
  have hsome := hextra hx
  -- the grid row with a present engineered block cannot be an asfreq blank,
  -- so it was found among the frame's rows
  unfold gridRow at hsome
  cases hf : (sortByKey (fun m => m.ts) f.rows).find?
      (fun r => decide (r.ts = gridLo (sortByKey (fun m => m.ts) f.rows) + (i : Int))) with
  | none =>
    rw [hf] at hsome
    simp at hsome
  | some r =>
    rw [hf] at hsome
    have hr : r ∈ f.rows :=
      (mem_sortByKey _ _ _).mp (List.mem_of_find?_eq_some hf)
    have hrts : r.ts = gridLo (sortByKey (fun m => m.ts) f.rows) + (i : Int) := by
      have := List.find?_some hf
      simpa using this
    refine ⟨r, hr, ?_, hsome⟩
    rw [hcts, hrts]

lemma clean_preserve {f : MergedFrame} {a b : ℕ} {out : List CleanRow}
    (hc : clean f a b = .ok out) {m : MergedRow} (hm : m ∈ f.rows)
    {q : RawQ} (hq : m.vals = someRaw q) {c : CleanRow} (hcm : c ∈ out)
    (hts : c.ts = m.ts) : c.vals = q := by
  obtain ⟨-, hnd, hout⟩ := clean_ok_elim hc
  rw [hout] at hcm
  obtain ⟨i, hi, hrow⟩ := List.mem_filterMap.mp hcm
  have hiN := List.mem_range.mp hi
  obtain ⟨hcts, -⟩ := cleanRowAt_some_elim hrow
  have hmts : m.ts = gridLo (sortByKey (fun r => r.ts) f.rows) + (i : Int) := by
    rw [← hts, hcts]
  have hgr : gridRow (sortByKey (fun r => r.ts) f.rows)
      (gridLo (sortByKey (fun r => r.ts) f.rows)) i = m :=
    gridRow_eq_of_mem hnd ((mem_sortByKey _ _ _).mpr hm) hmts
  have hcol : ∀ proj : Raw → Option ℚ,
      gridCol (sortByKey (fun r => r.ts) f.rows)
        (gridLo (sortByKey (fun r => r.ts) f.rows)) proj
        (gridLen (sortByKey (fun r => r.ts) f.rows)) i = proj (someRaw q) := by
    intro proj
    rw [gridCol_at proj hiN, hgr, hq]
  have hfill : filledRaw (sortByKey (fun r => r.ts) f.rows)
      (gridLo (sortByKey (fun r => r.ts) f.rows))
      (gridLen (sortByKey (fun r => r.ts) f.rows)) a b i = someRaw q := by
    unfold filledRaw
    rw [ffill1_at_some (hcol _), ffill1_at_some (hcol _),
      ffill1_at_some (hcol _), ffill1_at_some (hcol _),
      ffill1_at_some (hcol _), ffill1_at_some (hcol _),
      ffill1_at_some (hcol _), interpTime_at_some (hcol _),
      interpTime_at_some (hcol _), interpTime_at_some (hcol _),
      interpTime_at_some (hcol _)]
    rfl
  unfold cleanRowAt at hrow
  by_cases hcond : (f.hasExtra && (gridRow (sortByKey (fun r => r.ts) f.rows)
      (gridLo (sortByKey (fun r => r.ts) f.rows)) i).extra.isNone) = true
  · rw [if_pos hcond] at hrow
    exact absurd hrow (by simp)
  · rw [if_neg hcond, hfill, allSome_someRaw] at hrow
    have := Option.some.inj hrow
    rw [← this]

/-! ## Lemmas about the feature builder -/

lemma mkFeatRow_some_elim {s : List CleanRow} {i : ℕ} {d : FeatDoc}
    (h : mkFeatRow s i = some d) :
    ∃ c, s.get? i = some c ∧ 24 ≤ i ∧
      d.event_timestamp = c.ts ∧ d.vals = someRaw c.vals ∧ d.flags = c.flags ∧
      d.extra.aqi_roll_6 = rollMean s 6 i ∧
      d.extra.aqi_roll_24 = rollMean s 24 i ∧
      d.extra.pm25_wind_interaction =
        c.vals.pm2_5 / (c.vals.wind_speed_10m + 1) := by
  unfold mkFeatRow at h
  simp only [Option.bind_eq_some, Option.map_eq_some'] at h
  obtain ⟨c, hc, l1, hl1, l3, hl3, l24, hl24, r6, hr6, r24, hr24, hd⟩ := h
  have h24 : 24 ≤ i := by
    by_contra hlt
    unfold lagF at hl24
    rw [if_neg (by omega)] at hl24
    exact absurd hl24 (by simp)
  have hr6v : r6 = rollMean s 6 i := by
    unfold rollF at hr6
    by_cases hc6 : (decide (6 ≤ i) && (rollWin s 6 i).all (fun o => o.isSome)) = true
    · rw [if_pos hc6] at hr6
      exact (Option.some.inj hr6).symm
    · rw [if_neg hc6] at hr6
      exact absurd hr6 (by simp)
  have hr24v : r24 = rollMean s 24 i := by
    unfold rollF at hr24
    by_cases hc24 : (decide (24 ≤ i) && (rollWin s 24 i).all (fun o => o.isSome)) = true
    · rw [if_pos hc24] at hr24
      exact (Option.some.inj hr24).symm
    · rw [if_neg hc24] at hr24
      exact absurd hr24 (by simp)
  subst hd
  exact ⟨c, hc, h24, rfl, rfl, rfl, hr6v, hr24v, rfl⟩

lemma build_mem_spec {df : List CleanRow} {d : FeatDoc}
    (hd : d ∈ buildFeatureStoreRows df) :
    ∃ i c, 24 ≤ i ∧ (sortByKey (fun x => x.ts) df).get? i = some c ∧
      d.event_timestamp = c.ts ∧ d.vals = someRaw c.vals ∧ d.flags = c.flags ∧
      d.extra.aqi_roll_6 = rollMean (sortByKey (fun x => x.ts) df) 6 i ∧
      d.extra.aqi_roll_24 = rollMean (sortByKey (fun x => x.ts) df) 24 i ∧
      d.extra.pm25_wind_interaction =
        c.vals.pm2_5 / (c.vals.wind_speed_10m + 1) := by
  unfold buildFeatureStoreRows at hd
  obtain ⟨i, _, hrow⟩ := List.mem_filterMap.mp hd
  obtain ⟨c, hc, h24, h1, h2, h3, h4, h5, h6⟩ := mkFeatRow_some_elim hrow
  exact ⟨i, c, h24, hc, h1, h2, h3, h4, h5, h6⟩

lemma build_ts_from_clean {df : List CleanRow} {d : FeatDoc}
    (hd : d ∈ buildFeatureStoreRows df) :
    ∃ c ∈ df, d.event_timestamp = c.ts := by
  obtain ⟨i, c, _, hc, hts, _⟩ := build_mem_spec hd
  exact ⟨c, (mem_sortByKey _ _ _).mp (List.get?_mem hc), hts⟩

lemma rollMean_eq_getD (s : List CleanRow) (w i : ℕ) (hw : w ≤ i)
    (hi : i < s.length) :
    rollMean s w i =
      (((List.range w).map
        (fun k => (s.getD (i - w + k) cdef).vals.us_aqi)).sum) / (w : ℚ) := by
  unfold rollMean rollWin
  congr 1
  rw [List.map_map]
  congr 1
  apply List.map_congr_left
  intro k hk
  have hk2 : k < w := List.mem_range.mp hk
  have hj : i - w + k < s.length := by omega
  obtain ⟨v, hv⟩ : ∃ v, s.get? (i - w + k) = some v :=
    ⟨_, List.get?_eq_get hj⟩
  have hv2 : s[i - w + k]? = some v := by
    rw [← List.get?_eq_getElem?]
    exact hv
  simp only [Function.comp_apply]
  unfold cleanAqiAt
  rw [hv, List.getD_eq_getElem?_getD, hv2]
  rfl

lemma runWithNewRaw_eq_empty {s : Store} {a b : Int} {newRaw : List RawRow}
    (hemp : newRaw.isEmpty = true) :
    runWithNewRaw s a b newRaw =
      { result := .ok (), fetchCalled := true, written := 0, store := s } := by
  unfold runWithNewRaw
  rw [if_pos hemp]

lemma runWithNewRaw_eq_cleanFailed {s : Store} {a b : Int}
    {newRaw : List RawRow} {e : CleanErr} (hemp : ¬ newRaw.isEmpty = true)
    (hcl : clean (mergeDedup
      (readHistory s a historyHoursForFeatures) newRaw) 3 1 = .error e) :
    runWithNewRaw s a b newRaw =
      { result := .error (.cleanFailed e), fetchCalled := true,
        written := 0, store := s } := by
  unfold runWithNewRaw
  rw [if_neg hemp, hcl]

lemma runWithNewRaw_eq_ok {s : Store} {a b : Int} {newRaw : List RawRow}
    {dfClean : List CleanRow} (hemp : ¬ newRaw.isEmpty = true)
    (hcl : clean (mergeDedup
      (readHistory s a historyHoursForFeatures) newRaw) 3 1 = .ok dfClean) :
    runWithNewRaw s a b newRaw = windowFilterWrite s a b dfClean := by
  unfold runWithNewRaw
  rw [if_neg hemp, hcl]

/-! ## The catch-up run never writes from a nonempty store -/

lemma run_nonempty_no_write (s : Store) (now : Int) (src : SourceFn)
    (hs : s ≠ []) :
    (run s now src).written = 0 ∧ (run s now src).store = s := by
  obtain ⟨t, ht⟩ : ∃ t, latestTs s = some t := by
    cases s with
    | nil => exact absurd rfl hs
    | cons d ds => exact ⟨_, rfl⟩
  rw [run_eq_some ht]
  by_cases hnow : now < t + 1
  · rw [runFromLast_eq_noop hnow]
    exact ⟨rfl, rfl⟩
  · cases hsrc : src ((t + 1 + tzOffsetHours).ediv 24)
        ((now + tzOffsetHours).ediv 24) with
    | error e =>
      rw [runFromLast_eq_fetchFailed hnow hsrc]
      exact ⟨rfl, rfl⟩
    | ok fetched =>
      rw [runFromLast_eq_withNewRaw hnow hsrc]
      set newRaw := (fetched.map
          (fun r => { r with ts := r.ts - tzOffsetHours })).filter
        (fun r => decide (t + 1 ≤ r.ts) && decide (r.ts ≤ now)) with hnr
      by_cases hemp : newRaw.isEmpty
      · rw [runWithNewRaw_eq_empty hemp]
        exact ⟨rfl, rfl⟩
      · obtain ⟨res, hcl⟩ : ∃ res, clean (mergeDedup
            (readHistory s (t + 1) historyHoursForFeatures) newRaw) 3 1 = res :=
          ⟨_, rfl⟩
        cases res with
        | error e =>
          rw [runWithNewRaw_eq_cleanFailed hemp hcl]
          exact ⟨rfl, rfl⟩
        | ok dfClean =>
          rw [runWithNewRaw_eq_ok hemp hcl]
          -- every engineered row descends from a history-context hour < t + 1,
          -- so the window filter keeps nothing
          have hToW : (buildFeatureStoreRows dfClean).filter
              (fun d => decide (t + 1 ≤ d.event_timestamp) &&
                        decide (d.event_timestamp ≤ now)) = [] := by
            rw [List.filter_eq_nil_iff]
            intro d hd
            obtain ⟨c, hcmem, hcts⟩ := build_ts_from_clean hd
            have hne := @readHistory_nonempty s t ht historyHoursForFeatures
              (by norm_num [historyHoursForFeatures])
            have hhx : (mergeDedup
                (readHistory s (t + 1) historyHoursForFeatures) newRaw).hasExtra
                = true := by
              show (!(readHistory s (t + 1) historyHoursForFeatures).isEmpty) = true
              simp [List.isEmpty_iff, hne]
            obtain ⟨m, hmmem, hmts, hmx⟩ := clean_ok_mem_extra hhx hcl hcmem
            obtain ⟨dd, hdd, hddts⟩ := mergeDedup_extra_from_hist hmmem hmx
            have hbound := (readHistory_mem_bounds hdd).2.1
            have hlt : d.event_timestamp < t + 1 := by
              rw [hcts, ← hmts, hddts]
              exact hbound
            simp only [Bool.and_eq_true, decide_eq_true_eq, not_and]
            intro hge
            omega
          unfold windowFilterWrite
          rw [hToW]
          exact ⟨rfl, rfl⟩

/-! ## Dedup precedence and run-sequence preservation lemmas -/

lemma mergeDedup_filter (hist : List FeatDoc) (fresh : List RawRow) (h : Int) :
    (mergeDedup hist fresh).rows.filter (fun m => decide (m.ts = h)) =
      (((hist.map docToMerged ++ fresh.map rawToMerged).filter
        (fun m => decide (m.ts = h))).getLast?).toList := by
  show (dedupKeepLast (sortByKey (fun m => m.ts)
      (hist.map docToMerged ++ fresh.map rawToMerged))).filter
      (fun m => decide (m.ts = h)) = _
  rw [dedupKeepLast_filter]
  have hs := sortByKey_filter (fun m : MergedRow => m.ts)
    (hist.map docToMerged ++ fresh.map rawToMerged) h
  rw [hs]

lemma run_preserves_keys (s : Store) (now : Int) (src : SourceFn)
    (h : wfStore s) :
    wfStore (run s now src).store ∧
      ∀ k ∈ keysOf s, k ∈ keysOf (run s now src).store := by
  rcases run_store_cases s now src with h1 | ⟨rows, h1⟩ <;> rw [h1]
  · exact ⟨h, fun k hk => hk⟩
  · exact ⟨upsertFeatures_wf _ _ h,
      fun k hk => (upsertFeatures_keys _ _ _).mpr (Or.inl hk)⟩

lemma runSeq_preserves_keys (plans : List (Int × SourceFn)) : ∀ (s : Store),
    wfStore s →
      wfStore (runSeq s plans) ∧
        ∀ k ∈ keysOf s, k ∈ keysOf (runSeq s plans) := by
  induction plans with
  | nil =>
    intro s h
    exact ⟨h, fun k hk => hk⟩
  | cons p ps ih =>
    intro s h
    obtain ⟨h1, h2⟩ := run_preserves_keys s p.1 p.2 h
    obtain ⟨h3, h4⟩ := ih _ h1
    exact ⟨h3, fun k hk => h4 k (h2 k hk)⟩

/-! ## Claim theorems -/

set_option maxRecDepth 10000 in
set_option maxHeartbeats 2000000 in
/-- C1: gap-exactness fails on the code (code bug).  In the claim's own
scenario — latest persisted hour T = 24 backed by 24 fully valid history
hours, current hour T + 3 = 27, and a source returning complete raw data for
the missing window — run() completes successfully but writes 0 records
instead of the claimed 3 (hours 25, 26, 27): the history context read back
from the store carries the engineered columns, so after the concat the
freshly fetched rows hold nulls in those columns and the cleaner's final
dropna removes every one of them. -/
theorem catchup_gap_run_writes_zero :
    latestTs storeC1 = some 24 ∧ storeC1.length = 24 ∧
    (∀ d ∈ storeC1, d.vals = someRaw sampleVals) ∧
    run storeC1 27 srcC1 =
      { result := .ok (), fetchCalled := true, written := 0,
        store := storeC1 } := by
  decide

/-- C8: with an empty store, run() raises the fatal empty-store error before
reaching the upstream fetch and before writing anything; it never guesses a
synchronization window. -/
theorem empty_store_aborts_before_fetch (now : Int) (src : SourceFn) :
    run ([] : Store) now src =
      { result := .error .emptyStore, fetchCalled := false, written := 0,
        store := [] } :=
  run_eq_none rfl

/-- C10: an input frame without a timestamp column makes
clean_aqi_weather_data raise its ValueError before any transformation — the
cleaner returns the error and produces no output frame. -/
theorem clean_requires_timestamp_column (f : MergedFrame)
    (maxGap ffillLim : ℕ) (h : f.hasTimestampCol = false) :
    clean f maxGap ffillLim = .error .missingTimestampCol := by
  unfold clean
  rw [if_pos h]

/-- C10 witness at a concrete frame. -/
theorem clean_requires_timestamp_column_witness :
    clean { hasTimestampCol := false, hasExtra := false, rows := [] } 3 1 =
      .error .missingTimestampCol :=
  clean_requires_timestamp_column
    { hasTimestampCol := false, hasExtra := false, rows := [] } 3 1 rfl

/-- C5: when the latest persisted hour already equals or exceeds the current
hour, run() returns successfully without fetching and without writing, and
leaves the store untouched; and whatever happened on a first run, running
again with the same current hour and the same source applies zero writes and
leaves every stored record exactly as the first run left it. -/
theorem noop_window_and_second_run (store : Store) (now : Int)
    (src : SourceFn) :
    (∀ t, latestTs store = some t → now ≤ t →
       run store now src =
         { result := .ok (), fetchCalled := false, written := 0,
           store := store }) ∧
    (run (run store now src).store now src).written = 0 ∧
    (run (run store now src).store now src).store =
      (run store now src).store := by
  have hsecond : (run (run store now src).store now src).written = 0 ∧
      (run (run store now src).store now src).store =
        (run store now src).store := by
    by_cases hs : store = []
    · subst hs
      exact ⟨rfl, rfl⟩
    · have h1 := run_nonempty_no_write store now src hs
      rw [h1.2]
      exact ⟨h1.1, h1.2⟩
  refine ⟨?_, hsecond.1, hsecond.2⟩
  intro t ht hle
  rw [run_eq_some ht, runFromLast_eq_noop (by omega)]

/-- C5 witness: a store whose latest hour 100 is ahead of the current hour
90. -/
theorem noop_window_and_second_run_witness :
    run [sampleDoc 100] 90 srcErr =
      { result := .ok (), fetchCalled := false, written := 0,
        store := [sampleDoc 100] } ∧
    (run (run [sampleDoc 100] 90 srcErr).store 90 srcErr).written = 0 :=
  ⟨(noop_window_and_second_run [sampleDoc 100] 90 srcErr).1 100 rfl
      (by decide),
   (noop_window_and_second_run [sampleDoc 100] 90 srcErr).2.1⟩

set_option maxRecDepth 2000 in
/-- C7 counterexample: a failed upstream fetch does not end the run quietly —
run() propagates the transport error to its caller (with zero rows written),
refuting the claim that every source failure is non-fatal. -/
theorem fetch_error_propagates :
    (run [sampleDoc 100] 103 srcErr).result =
      Except.error (RunErr.fetchFailed FetchErr.httpError) ∧
    (run [sampleDoc 100] 103 srcErr).written = 0 := by
  decide

/-- C7 (amended): with a nonempty store and a nonempty missing window, an
upstream fetch that returns zero rows inside the window makes run() end early
with success and zero writes, while an upstream fetch failure propagates to
the caller as a raised error — in both cases zero rows are written and the
store is unchanged. -/
theorem source_unavailable_amended (store : Store) (now t : Int)
    (src : SourceFn) (ht : latestTs store = some t) (hlt : t < now) :
    (∀ e, src ((t + 1 + tzOffsetHours).ediv 24)
        ((now + tzOffsetHours).ediv 24) = .error e →
      run store now src =
        { result := .error (.fetchFailed e), fetchCalled := true,
          written := 0, store := store }) ∧
    (∀ fetched, src ((t + 1 + tzOffsetHours).ediv 24)
        ((now + tzOffsetHours).ediv 24) = .ok fetched →
      ((fetched.map (fun r => { r with ts := r.ts - tzOffsetHours })).filter
        (fun r => decide (t + 1 ≤ r.ts) &&
                  decide (r.ts ≤ now))).isEmpty = true →
      run store now src =
        { result := .ok (), fetchCalled := true, written := 0,
          store := store }) := by
  have hnow : ¬ now < t + 1 := by omega
  constructor
  · intro e hsrc
    rw [run_eq_some ht, runFromLast_eq_fetchFailed hnow hsrc]
  · intro fetched hsrc hemp
    rw [run_eq_some ht, runFromLast_eq_withNewRaw hnow hsrc,
      runWithNewRaw_eq_empty hemp]

/-- C7 witness: both amended behaviors at a concrete store and hour. -/
theorem source_unavailable_amended_witness :
    run [sampleDoc 100] 103 srcErr =
      { result := .error (.fetchFailed .httpError), fetchCalled := true,
        written := 0, store := [sampleDoc 100] } ∧
    run [sampleDoc 100] 103 srcNone =
      { result := .ok (), fetchCalled := true, written := 0,
        store := [sampleDoc 100] } :=
  ⟨(source_unavailable_amended [sampleDoc 100] 103 100 srcErr rfl
      (by decide)).1 .httpError rfl,
   (source_unavailable_amended [sampleDoc 100] 103 100 srcNone rfl
      (by decide)).2 [] rfl (by decide)⟩

set_option maxRecDepth 4000 in
set_option maxHeartbeats 1000000 in
/-- C3 counterexample: with only 3 valid trailing hours persisted before the
missing hour 101 (far fewer than 24) and complete fresh data for it, the
catch-up run does not raise any insufficient-history failure — it completes
successfully, silently writing nothing. -/
theorem insufficient_history_run_succeeds :
    storeC3.length = 3 ∧ latestTs storeC3 = some 100 ∧
    (run storeC3 101 srcC3).result = Except.ok () ∧
    (run storeC3 101 srcC3).written = 0 := by
  decide

/-- C3 (amended): a record is never written with a truncated rolling window,
but only the single-hour ingestion path turns the shortage into a raised
error: _build_feature_doc raises the insufficient-history failure whenever
fewer than 24 trailing hours exist, while the catch-up run (from any nonempty
store) writes nothing at all and completes without raising an
insufficient-history error. -/
theorem insufficient_history_amended :
    (∀ (raw : RawRow) (store : Store) (l : List ℚ),
       raw.vals.us_aqi.isSome = true → raw.vals.pm2_5.isSome = true →
       raw.vals.wind_speed_10m.isSome = true →
       getAqiHistory store (raw.ts - tzOffsetHours) 24 = .ok l →
       l.length < 24 →
       buildFeatureDoc raw store = .error .insufficientHistory) ∧
    (∀ (store : Store) (now : Int) (src : SourceFn), store ≠ [] →
       (run store now src).written = 0 ∧ (run store now src).store = store) := by
  constructor
  · intro raw store l h1 h2 h3 hg hlen
    obtain ⟨aq, ha⟩ := Option.isSome_iff_exists.mp h1
    obtain ⟨pm, hb⟩ := Option.isSome_iff_exists.mp h2
    obtain ⟨wd, hc2⟩ := Option.isSome_iff_exists.mp h3
    unfold buildFeatureDoc
    rw [ha, hb, hc2, hg]
    show Except.bind (Except.ok l) _ = _
    simp only [Except.bind]
    rw [if_pos hlen]
  · intro store now src hs
    exact run_nonempty_no_write store now src hs

/-- C3 witness: both amended behaviors at concrete inputs. -/
theorem insufficient_history_amended_witness :
    buildFeatureDoc (sampleRow 10) [] = .error .insufficientHistory ∧
    (run [sampleDoc 100] 200 srcErr).written = 0 :=
  ⟨insufficient_history_amended.1 (sampleRow 10) [] [] rfl rfl rfl rfl
      (by decide),
   (insufficient_history_amended.2 [sampleDoc 100] 200 srcErr (by decide)).1⟩

/-- C6: the store keeps at most one record per (entity, hour) key under every
write the engine performs: each applied write is an upsert keyed by the hour —
the key set after upserting is exactly the old keys united with the written
rows' keys (insert when absent, overwrite in place when present) — and any
sequence of runs preserves well-formedness and never deletes a persisted
key. -/
theorem uniqueness_upsert_invariant (store : Store) (hwf : wfStore store) :
    (∀ rows : List FeatDoc,
       wfStore (upsertFeatures store rows).1 ∧
       ∀ k, k ∈ keysOf (upsertFeatures store rows).1 ↔
         k ∈ keysOf store ∨ k ∈ rows.map (fun r => r.event_timestamp)) ∧
    (∀ plans : List (Int × SourceFn),
       wfStore (runSeq store plans) ∧
       ∀ k ∈ keysOf store, k ∈ keysOf (runSeq store plans)) := by
  constructor
  · intro rows
    exact ⟨upsertFeatures_wf rows store hwf,
      fun k => upsertFeatures_keys rows store k⟩
  · intro plans
    exact runSeq_preserves_keys plans store hwf

/-- C6 witness: a concrete upsert of a new key and a concrete run
sequence. -/
theorem uniqueness_upsert_invariant_witness :
    wfStore (upsertFeatures [sampleDoc 1] [sampleDoc 2]).1 ∧
    ((2 : Int) ∈ keysOf (upsertFeatures [sampleDoc 1] [sampleDoc 2]).1 ↔
      (2 : Int) ∈ keysOf [sampleDoc 1] ∨
        (2 : Int) ∈ [sampleDoc 2].map (fun r => r.event_timestamp)) ∧
    wfStore (runSeq [sampleDoc 1] [(5, srcErr)]) :=
  ⟨((uniqueness_upsert_invariant [sampleDoc 1]
      (by unfold wfStore; decide)).1 [sampleDoc 2]).1,
   ((uniqueness_upsert_invariant [sampleDoc 1]
      (by unfold wfStore; decide)).1 [sampleDoc 2]).2 2,
   ((uniqueness_upsert_invariant [sampleDoc 1]
      (by unfold wfStore; decide)).2 [(5, srcErr)]).1⟩

/-- C4: every row the feature builder emits sits at a position i ≥ 24 of the
sorted cleaned frame, and its aqi_roll_24 equals the arithmetic mean of
us_aqi over the 24 rows immediately preceding it (positions i-24 … i-1) while
aqi_roll_6 equals the mean over the 6 immediately preceding rows — the row's
own us_aqi value (position i) is never part of either window. -/
theorem rolling_windows_strictly_past (df : List CleanRow) (d : FeatDoc)
    (hd : d ∈ buildFeatureStoreRows df) :
    ∃ i c, 24 ≤ i ∧ (sortByKey (fun x => x.ts) df).get? i = some c ∧
      d.event_timestamp = c.ts ∧
      d.extra.aqi_roll_24 =
        (((List.range 24).map (fun k =>
          ((sortByKey (fun x => x.ts) df).getD (i - 24 + k) cdef).vals.us_aqi)).sum)
          / (24 : ℚ) ∧
      d.extra.aqi_roll_6 =
        (((List.range 6).map (fun k =>
          ((sortByKey (fun x => x.ts) df).getD (i - 6 + k) cdef).vals.us_aqi)).sum)
          / (6 : ℚ) := by
  obtain ⟨i, c, h24, hc, hts, _, _, hr6, hr24, _⟩ := build_mem_spec hd
  have hi : i < (sortByKey (fun x => x.ts) df).length := by
    by_contra hge
    rw [List.get?_eq_none.mpr (by omega)] at hc
    exact absurd hc (by simp)
  refine ⟨i, c, h24, hc, hts, ?_, ?_⟩
  · rw [hr24, rollMean_eq_getD _ 24 i h24 hi]
    norm_num
  · rw [hr6, rollMean_eq_getD _ 6 i (by omega) hi]
    norm_num

lemma getD_zero_mem {α : Type} (l : List α) (d : α) (h : l ≠ []) :
    l.getD 0 d ∈ l := by
  cases l with
  | nil => exact absurd rfl h
  | cons x xs => exact List.mem_cons_self x xs

lemma except_ok_eq {ε α : Type} (e : Except ε α) (d : α)
    (h : e.toOption.isSome = true) : e = .ok (e.toOption.getD d) := by
  cases e with
  | error x => simp [Except.toOption] at h
  | ok a => rfl

set_option maxRecDepth 4000 in
set_option maxHeartbeats 1000000 in
/-- C4 witness: from 25 clean rows with us_aqi 0 … 24 the builder emits one
row, whose rolling means are the strictly-past window means. -/
theorem rolling_windows_strictly_past_witness :
    dW ∈ buildFeatureStoreRows dfW ∧
    (∃ i c, 24 ≤ i ∧ (sortByKey (fun x => x.ts) dfW).get? i = some c ∧
      dW.event_timestamp = c.ts ∧
      dW.extra.aqi_roll_24 =
        (((List.range 24).map (fun k =>
          ((sortByKey (fun x => x.ts) dfW).getD (i - 24 + k) cdef).vals.us_aqi)).sum)
          / (24 : ℚ) ∧
      dW.extra.aqi_roll_6 =
        (((List.range 6).map (fun k =>
          ((sortByKey (fun x => x.ts) dfW).getD (i - 6 + k) cdef).vals.us_aqi)).sum)
          / (6 : ℚ)) :=
  ⟨getD_zero_mem (buildFeatureStoreRows dfW) docDef (by decide),
   rolling_windows_strictly_past dfW dW
     (getD_zero_mem (buildFeatureStoreRows dfW) docDef (by decide))⟩

/-- C9: for every row the feature builder emits, the interaction term equals
pm2_5 / (wind_speed_10m + 1), and whenever the wind value is non-negative the
denominator wind + 1 is nonzero (in particular at wind = 0); the same holds
for the document built by the single-hour path. -/
theorem interaction_term_division_safety :
    (∀ (df : List CleanRow) (d : FeatDoc), d ∈ buildFeatureStoreRows df →
       ∃ p w, d.vals.pm2_5 = some p ∧ d.vals.wind_speed_10m = some w ∧
         d.extra.pm25_wind_interaction = p / (w + 1) ∧
         (0 ≤ w → w + 1 ≠ 0)) ∧
    (∀ (raw : RawRow) (store : Store) (doc : FeatDoc),
       buildFeatureDoc raw store = .ok doc →
       ∃ p w, doc.vals.pm2_5 = some p ∧ doc.vals.wind_speed_10m = some w ∧
         doc.extra.pm25_wind_interaction = p / (w + 1) ∧
         (0 ≤ w → w + 1 ≠ 0)) := by
  constructor
  · intro df d hd
    obtain ⟨i, c, _, _, _, hvals, _, _, _, hint⟩ := build_mem_spec hd
    refine ⟨c.vals.pm2_5, c.vals.wind_speed_10m, ?_, ?_, hint, ?_⟩
    · rw [hvals]
      rfl
    · rw [hvals]
      rfl
    · intro hw heq
      have h1 : c.vals.wind_speed_10m = -1 := by linarith
      rw [h1] at hw
      norm_num at hw
  · intro raw store doc hdoc
    unfold buildFeatureDoc at hdoc
    cases ha : raw.vals.us_aqi with
    | none =>
      rw [ha] at hdoc
      simp at hdoc
    | some aq =>
      cases hb : raw.vals.pm2_5 with
      | none =>
        rw [ha, hb] at hdoc
        simp at hdoc
      | some pm =>
        cases hc2 : raw.vals.wind_speed_10m with
        | none =>
          rw [ha, hb, hc2] at hdoc
          simp at hdoc
        | some wd =>
          rw [ha, hb, hc2] at hdoc
          cases hg : getAqiHistory store (raw.ts - tzOffsetHours) 24 with
          | error e =>
            rw [hg] at hdoc
            simp [Except.bind] at hdoc
          | ok hist =>
            rw [hg] at hdoc
            by_cases hlen : hist.length < 24
            · simp only [Except.bind] at hdoc
              rw [if_pos hlen] at hdoc
              simp at hdoc
            · simp only [Except.bind] at hdoc
              rw [if_neg hlen] at hdoc
              have hdd := Except.ok.inj hdoc
              refine ⟨pm, wd, ?_, ?_, ?_, ?_⟩
              · rw [← hdd]
                exact hb
              · rw [← hdd]
                exact hc2
              · rw [← hdd]
              · intro hw heq
                have h1 : wd = -1 := by linarith
                rw [h1] at hw
                norm_num at hw

set_option maxRecDepth 4000 in
set_option maxHeartbeats 1000000 in
/-- C9 witness: the builder row from dfW and the single-hour document over 24
persisted hours. -/
theorem interaction_term_division_safety_witness :
    (∃ p w, dW.vals.pm2_5 = some p ∧ dW.vals.wind_speed_10m = some w ∧
       dW.extra.pm25_wind_interaction = p / (w + 1) ∧ (0 ≤ w → w + 1 ≠ 0)) ∧
    (∃ p w, doc9W.vals.pm2_5 = some p ∧ doc9W.vals.wind_speed_10m = some w ∧
       doc9W.extra.pm25_wind_interaction = p / (w + 1) ∧
       (0 ≤ w → w + 1 ≠ 0)) :=
  ⟨interaction_term_division_safety.1 dfW dW
     (getD_zero_mem (buildFeatureStoreRows dfW) docDef (by decide)),
   interaction_term_division_safety.2 (sampleRow 29) store9W doc9W
     (except_ok_eq (buildFeatureDoc (sampleRow 29) store9W) docDef (by decide))⟩

lemma mergeDedup_eq_with (hist : List FeatDoc) (fresh : List RawRow) :
    mergeDedup hist fresh = mergeDedupWith hist fresh
      (sortByKey (fun m => m.ts)
        (hist.map docToMerged ++ fresh.map rawToMerged)) := rfl

set_option maxRecDepth 2000 in
/-- C2 counterexample: fresh-over-stale precedence is not guaranteed by the
code.  `sort_values` (default quicksort) only promises a sorted permutation,
not the tie order; `sortedBad` is such a permutation of the concrete
concatenated frame, and under it `drop_duplicates(keep="last")` keeps the
persisted hour-50 row, whose raw values differ from the freshly fetched
(corrected) ones. -/
theorem dedup_stale_survives :
    IsSortValuesOutput (fun m => m.ts)
      (histW.map docToMerged ++ freshW.map rawToMerged) sortedBad ∧
    (mergeDedupWith histW freshW sortedBad).rows.filter
      (fun x => decide (x.ts = 50)) = [docToMerged (sampleDoc 50)] ∧
    (docToMerged (sampleDoc 50)).vals ≠ (rawToMerged frW).vals := by
  refine ⟨⟨by decide, by decide⟩, by decide, by decide⟩

/-- C2 (amended): for an hour present both in the history context and among
the freshly fetched rows, and for EVERY sort output the program's unstable
`sort_values` permits, the merged deduplicated frame contains exactly one
row for that hour, and it is one of the rows the concatenated frame held for
it — the freshly fetched row or a persisted history row (which one is
unspecified, so fresh-over-stale is not guaranteed).  The raw values any
final engineered record for that hour reflects are those of the surviving
row; in particular, when the freshly fetched row survives, no engineered
record for that hour is produced at all (its engineered columns are null
after the concat, so the cleaner drops it). -/
theorem dedup_overlap_amended (hist : List FeatDoc) (fresh : List RawRow)
    (h : Int) (fr : RawRow)
    (hh : h ∈ hist.map (fun d => d.event_timestamp))
    (hf : fresh.filter (fun r => decide (r.ts = h)) = [fr])
    (sorted : List MergedRow)
    (hsort : IsSortValuesOutput (fun m => m.ts)
      (hist.map docToMerged ++ fresh.map rawToMerged) sorted) :
    ∃ m, (mergeDedupWith hist fresh sorted).rows.filter
        (fun x => decide (x.ts = h)) = [m] ∧ m.ts = h ∧
      (m = rawToMerged fr ∨
        ∃ d ∈ hist, d.event_timestamp = h ∧ m = docToMerged d) ∧
      (m = rawToMerged fr →
        ∀ (a b : ℕ) (out : List CleanRow) (d : FeatDoc),
          clean (mergeDedupWith hist fresh sorted) a b = .ok out →
          d ∈ buildFeatureStoreRows out → d.event_timestamp ≠ h) ∧
      (∀ q, m.vals = someRaw q →
        ∀ (a b : ℕ) (out : List CleanRow) (d : FeatDoc),
          clean (mergeDedupWith hist fresh sorted) a b = .ok out →
          d ∈ buildFeatureStoreRows out → d.event_timestamp = h →
          d.vals = someRaw q) := by
  obtain ⟨d0, hd0, hd0ts⟩ := List.mem_map.mp hh
  have hd0srt : docToMerged d0 ∈ sorted :=
    hsort.1.mem_iff.mpr
      (List.mem_append.mpr (Or.inl (List.mem_map_of_mem docToMerged hd0)))
  have hd0f : docToMerged d0 ∈ sorted.filter (fun x => decide (x.ts = h)) :=
    List.mem_filter.mpr ⟨hd0srt, by simp [docToMerged, hd0ts]⟩
  cases hlast : (sorted.filter (fun x => decide (x.ts = h))).getLast? with
  | none =>
    exfalso
    rw [List.getLast?_eq_none_iff] at hlast
    rw [hlast] at hd0f
    exact absurd hd0f (List.not_mem_nil _)
  | some m =>
    have hfilter : (mergeDedupWith hist fresh sorted).rows.filter
        (fun x => decide (x.ts = h)) = [m] := by
      show (dedupKeepLast sorted).filter (fun x => decide (x.ts = h)) = [m]
      rw [dedupKeepLast_filter, hlast]
      rfl
    have hmf : m ∈ sorted.filter (fun x => decide (x.ts = h)) := by
      have h1 : m ∈ (mergeDedupWith hist fresh sorted).rows.filter
          (fun x => decide (x.ts = h)) := by
        rw [hfilter]
        exact List.mem_singleton.mpr rfl
      have h2 := List.mem_of_mem_filter h1
      exact List.mem_filter.mpr ⟨dedupKeepLast_subset h2, by
        have := (List.mem_filter.mp h1).2
        exact this⟩
    have hmts : m.ts = h := by
      have := (List.mem_filter.mp hmf).2
      simpa using this
    have hmrows : m ∈ (mergeDedupWith hist fresh sorted).rows := by
      have h1 : m ∈ (mergeDedupWith hist fresh sorted).rows.filter
          (fun x => decide (x.ts = h)) := by
        rw [hfilter]
        exact List.mem_singleton.mpr rfl
      exact List.mem_of_mem_filter h1
    have hsrc : m = rawToMerged fr ∨
        ∃ d ∈ hist, d.event_timestamp = h ∧ m = docToMerged d := by
      have hmem : m ∈ hist.map docToMerged ++ fresh.map rawToMerged :=
        hsort.1.mem_iff.mp (List.mem_of_mem_filter hmf)
      rcases List.mem_append.mp hmem with h1 | h1
      · obtain ⟨d, hd, hdm⟩ := List.mem_map.mp h1
        refine Or.inr ⟨d, hd, ?_, hdm.symm⟩
        rw [← hmts, ← hdm]
        rfl
      · obtain ⟨r, hr, hrm⟩ := List.mem_map.mp h1
        have hrts : r.ts = h := by
          rw [← hmts, ← hrm]
          rfl
        have hrf : r ∈ fresh.filter (fun x => decide (x.ts = h)) :=
          List.mem_filter.mpr ⟨hr, by simp [hrts]⟩
        rw [hf] at hrf
        rw [List.mem_singleton.mp hrf] at hrm
        exact Or.inl hrm.symm
    have hxtrue : (mergeDedupWith hist fresh sorted).hasExtra = true := by
      show (!hist.isEmpty) = true
      simp [List.isEmpty_iff]
      exact List.ne_nil_of_mem hd0
    refine ⟨m, hfilter, hmts, hsrc, ?_, ?_⟩
    · intro hmfr a b out d hcl hd hdh
      obtain ⟨c, hcmem, hcts⟩ := build_ts_from_clean hd
      obtain ⟨m2, hm2mem, hm2ts, hm2x⟩ := clean_ok_mem_extra hxtrue hcl hcmem
      have hm2f : m2 ∈ (mergeDedupWith hist fresh sorted).rows.filter
          (fun x => decide (x.ts = h)) := by
        refine List.mem_filter.mpr ⟨hm2mem, ?_⟩
        simp [hm2ts, ← hcts, hdh]
      rw [hfilter] at hm2f
      rw [List.mem_singleton.mp hm2f, hmfr] at hm2x
      simp [rawToMerged] at hm2x
    · intro q hmq a b out d hcl hd hdh
      obtain ⟨i, c, _, hc, hdts2, hdvals, _⟩ := build_mem_spec hd
      have hcmem : c ∈ out := (mem_sortByKey _ _ _).mp (List.get?_mem hc)
      have hcts : c.ts = m.ts := by
        rw [hmts, ← hdh, hdts2]
      have hcv := clean_preserve hcl
        (List.mem_of_mem_filter (hfilter ▸ List.mem_singleton.mpr rfl :
          m ∈ (mergeDedupWith hist fresh sorted).rows.filter
            (fun x => decide (x.ts = h)))) hmq hcmem hcts
      rw [hdvals, hcv]

/-- C2 witness: the amended statement at the concrete overlapped hour 50,
under the concrete permitted sort output in which the persisted row comes
last. -/
theorem dedup_overlap_amended_witness :
    ∃ m, (mergeDedupWith histW freshW sortedBad).rows.filter
        (fun x => decide (x.ts = 50)) = [m] ∧ m.ts = 50 ∧
      (m = rawToMerged frW ∨
        ∃ d ∈ histW, d.event_timestamp = 50 ∧ m = docToMerged d) ∧
      (m = rawToMerged frW →
        ∀ (a b : ℕ) (out : List CleanRow) (d : FeatDoc),
          clean (mergeDedupWith histW freshW sortedBad) a b = .ok out →
          d ∈ buildFeatureStoreRows out → d.event_timestamp ≠ 50) ∧
      (∀ q, m.vals = someRaw q →
        ∀ (a b : ℕ) (out : List CleanRow) (d : FeatDoc),
          clean (mergeDedupWith histW freshW sortedBad) a b = .ok out →
          d ∈ buildFeatureStoreRows out → d.event_timestamp = 50 →
          d.vals = someRaw q) :=
  dedup_overlap_amended histW freshW 50 frW (by decide) (by decide) sortedBad
    ⟨by decide, by decide⟩
